import Mathlib

/-!
Verification of the VocabFlow client-side logic against its specification.

The definitions below are a shallow embedding of the TypeScript source:
  * `processedWords` embeds the list pipeline of `src/src/App.tsx`
    (`processedWords`, lines 293-340): predicate filter, then
    `Array.prototype.sort` with the six comparators, then the positional
    index filter with JavaScript `parseInt` / `NaN` semantics.
  * the quiz verdict logic embeds `handleSendMessage` of
    `src/src/components/QuizModal.tsx` (lines 130-150).
  * the creation-flow `partOfSpeech` logic embeds `handleManualSubmit`
    of the AddWordModal (`src/unnamed/part_004`, lines 86-132) and the
    post-processing of `generateWordInfo`
    (`src/src/services/geminiService.ts`, lines 128-141).
  * the playback sequencer embeds `playSequence` / `speak` of the
    FlashcardView revision in `src/unnamed/part_003` (lines 350-525).

Strings are modelled as `List Char`.  JavaScript string operations are
modelled on this representation: `toLowerCase` via `Char.toLower`
(faithful on the ASCII range exercised here), `includes` as substring
containment, `trim` over the standard whitespace characters.
-/

set_option autoImplicit false

namespace VocabFlow

abbrev Str := List Char

/-- Models JavaScript `String.prototype.startsWith pat` on `s`
(first argument is the pattern). -/
def strStarts : Str → Str → Bool
  | [], _ => true
  | _ :: _, [] => false
  | c :: p, d :: s => c == d && strStarts p s

/-- Models JavaScript `s.includes(pat)`: substring containment. -/
def strIncludes : Str → Str → Bool
  | [], pat => strStarts pat []
  | c :: r, pat => strStarts pat (c :: r) || strIncludes r pat

/-- Models JavaScript `toLowerCase` (faithful on ASCII, which is the
range the application compares on). -/
def lower (s : Str) : Str := s.map Char.toLower

/-- Whitespace characters recognised by JavaScript `trim` and `parseInt`
(ASCII whitespace plus NBSP; the application only feeds it keyboard
input). -/
def isJsWhite (c : Char) : Bool :=
  c == ' ' || c == '\t' || c == '\n' || c == '\r' ||
  c == '\u000B' || c == '\u000C' || c == ' '

/-- Models JavaScript `String.prototype.trim`. -/
def jsTrim (s : Str) : Str :=
  ((s.dropWhile isJsWhite).reverse.dropWhile isJsWhite).reverse

def decDigit (c : Char) : Option Nat :=
  if c.isDigit then some (c.toNat - ('0').toNat) else none

def hexDigit (c : Char) : Option Nat :=
  if c.isDigit then some (c.toNat - ('0').toNat)
  else if 'a' ≤ c && c ≤ 'f' then some (c.toNat - ('a').toNat + 10)
  else if 'A' ≤ c && c ≤ 'F' then some (c.toNat - ('A').toNat + 10)
  else none

/-- Accumulate digits until the first non-digit, as `parseInt` does. -/
def takeDigits (dig : Char → Option Nat) (base : Nat) : Str → Nat → Nat
  | [], acc => acc
  | c :: r, acc =>
    match dig c with
    | none => acc
    | some v => takeDigits dig base r (acc * base + v)

/-- Models JavaScript `parseInt(s)` (radix unspecified): skip leading
whitespace, optional sign, optional `0x`/`0X` hex prefix, then digits up
to the first non-digit; `none` models `NaN` (no digits at all). -/
def jsParseInt (s : Str) : Option Int :=
  let s1 := s.dropWhile isJsWhite
  let signed : Int × Str :=
    match s1 with
    | '+' :: r => (1, r)
    | '-' :: r => (-1, r)
    | _ => (1, s1)
  let body := signed.2
  match body with
  | '0' :: 'x' :: r =>
    match r with
    | [] => none
    | c :: _ =>
      match hexDigit c with
      | none => none
      | some _ => some (signed.1 * Int.ofNat (takeDigits hexDigit 16 r 0))
  | '0' :: 'X' :: r =>
    match r with
    | [] => none
    | c :: _ =>
      match hexDigit c with
      | none => none
      | some _ => some (signed.1 * Int.ofNat (takeDigits hexDigit 16 r 0))
  | _ =>
    match body with
    | [] => none
    | c :: _ =>
      match decDigit c with
      | none => none
      | some _ => some (signed.1 * Int.ofNat (takeDigits decDigit 10 body 0))

/-- A JavaScript number as used by the index-range bounds: a finite
value, `Infinity`, or `NaN`. -/
inductive JsNum
  | nan
  | fin (n : Int)
  | inf
deriving DecidableEq

/-- `i >= b` with IEEE semantics: any comparison against `NaN` is
false; nothing is `>= Infinity` except `Infinity` (indices are finite). -/
def jsIdxGE (i : Int) : JsNum → Bool
  | .nan => false
  | .inf => false
  | .fin n => decide (n ≤ i)

/-- `i < b` with IEEE semantics: false against `NaN`, true against
`Infinity` for finite `i`. -/
def jsIdxLT (i : Int) : JsNum → Bool
  | .nan => false
  | .inf => true
  | .fin n => decide (i < n)

structure WordExample where
  sentence : Str
  translation : Str
deriving DecidableEq

/-- The `WordDocument` record of `src/unnamed/part_004` (types module).
`createdAt` is kept as its `seconds` component, the only part the
pipeline reads; `toeicLevel` is optional in stored data. -/
structure Word where
  id : Str
  english : Str
  meaning : Str
  coreImage : Str
  category : Str
  partOfSpeech : List Str
  toeicLevel : Option Int
  examples : List WordExample
  status : Str
  pronunciationURL : Str
  createdAtSeconds : Int
  comment : Str
deriving DecidableEq

/-- Models `w.toeicLevel || 0`. -/
def orZero : Option Int → Int
  | none => 0
  | some n => n

/-- Models `w.createdAt?.seconds ? new Date(w.createdAt.seconds * 1000) : null`
from the date filter: a zero `seconds` is falsy and yields `null`. -/
def wordDateMs (w : Word) : Option Int :=
  if w.createdAtSeconds == 0 then none else some (w.createdAtSeconds * 1000)

inductive SortOrder
  | newest
  | oldest
  | az
  | za
  | toeicHigh
  | toeicLow
deriving DecidableEq

/-- The UI query state read by `processedWords` in `src/src/App.tsx`.
`dateFromMs` models `new Date(filterDateFrom)` at `00:00:00.000` local
time in epoch milliseconds when the field is non-empty (`none` = empty
field), and `dateToMs` the `23:59:59.999` bound likewise. -/
structure Query where
  searchTerm : Str
  filterCategory : Str
  filterStatus : Str
  filterPos : Str
  filterToeic : Str
  dateFromMs : Option Int
  dateToMs : Option Int
  filterIndexFrom : Str
  filterIndexTo : Str
  sortOrder : SortOrder
deriving DecidableEq

def allStr : Str := ['A', 'l', 'l']

/-- First disjunct of the filter callback:
`w.english.toLowerCase().includes(searchTerm.toLowerCase()) || w.meaning.includes(searchTerm)`. -/
def matchesSearch (q : Query) (w : Word) : Bool :=
  strIncludes (lower w.english) (lower q.searchTerm) ||
  strIncludes w.meaning q.searchTerm

/-- `(w.toeicLevel || 0) < parseInt(filterToeic)`; a `NaN` comparison is
false. -/
def toeicBelow (w : Word) (s : Str) : Bool :=
  match jsParseInt s with
  | none => false
  | some m => decide (orZero w.toeicLevel < m)

def dateActive (q : Query) : Bool :=
  q.dateFromMs.isSome || q.dateToMs.isSome

/-- The date-range test of the filter callback (lines 307-322): a word
with a falsy `createdAt.seconds` is rejected whenever a date bound is
set; otherwise `wordDate < fromDate` or `wordDate > toDate` reject. -/
def dateOK (q : Query) (w : Word) : Bool :=
  match wordDateMs w with
  | none => false
  | some ms =>
    (match q.dateFromMs with
     | none => true
     | some f => !(decide (ms < f))) &&
    (match q.dateToMs with
     | none => true
     | some t => !(decide (t < ms)))

/-- The filter callback of `processedWords` (App.tsx lines 294-325),
with its early returns rendered as an if-chain. -/
def wordPasses (q : Query) (w : Word) : Bool :=
  if !(matchesSearch q w) then false
  else if q.filterCategory != allStr && w.category != q.filterCategory then false
  else if q.filterStatus != allStr && w.status != q.filterStatus then false
  else if q.filterPos != allStr && !(w.partOfSpeech.contains q.filterPos) then false
  else if q.filterToeic != allStr && toeicBelow w q.filterToeic then false
  else if dateActive q && !(dateOK q w) then false
  else true

/-- Code-point lexicographic string comparison, modelling
`localeCompare` (every locale agrees with it on the distinct single
ASCII letters the proofs below sort). -/
def lexCmp : Str → Str → Int
  | [], [] => 0
  | [], _ :: _ => -1
  | _ :: _, [] => 1
  | a :: as, b :: bs =>
    if a < b then -1 else if b < a then 1 else lexCmp as bs

/-- The sort comparator of `processedWords` (App.tsx lines 326-334). -/
def cmpWords (o : SortOrder) (a b : Word) : Int :=
  match o with
  | .newest => b.createdAtSeconds - a.createdAtSeconds
  | .oldest => a.createdAtSeconds - b.createdAtSeconds
  | .za => lexCmp b.english a.english
  | .toeicHigh => orZero b.toeicLevel - orZero a.toeicLevel
  | .toeicLow => orZero a.toeicLevel - orZero b.toeicLevel
  | .az => lexCmp a.english b.english

def sortLe (o : SortOrder) (a b : Word) : Bool :=
  decide (cmpWords o a b ≤ 0)

/-- Stable insertion into a sorted list: the new element goes before the
first element it compares `<= 0` against. -/
def insertB {α : Type} (le : α → α → Bool) (x : α) : List α → List α
  | [] => [x]
  | y :: ys => if le x y then x :: y :: ys else y :: insertB le x ys

/-- Stable sort.  `Array.prototype.sort` is specified to be stable, and
a stable sort's output is uniquely determined by a consistent
comparator, so any stable sort is a faithful model. -/
def insortB {α : Type} (le : α → α → Bool) : List α → List α
  | [] => []
  | x :: xs => insertB le x (insortB le xs)

/-- `filterIndexFrom ? Math.max(0, parseInt(filterIndexFrom) - 1) : 0`
(empty string is falsy; `Math.max(0, NaN) = NaN`). -/
def startBound (q : Query) : JsNum :=
  if q.filterIndexFrom == ([] : Str) then .fin 0
  else
    match jsParseInt q.filterIndexFrom with
    | none => .nan
    | some n => .fin (max 0 (n - 1))

/-- `filterIndexTo ? parseInt(filterIndexTo) : Infinity`. -/
def endBound (q : Query) : JsNum :=
  if q.filterIndexTo == ([] : Str) then .inf
  else
    match jsParseInt q.filterIndexTo with
    | none => .nan
    | some n => .fin n

/-- The index-filter callback `index >= start && index < end`
(App.tsx lines 336-340). -/
def idxKeep (q : Query) (i : Nat) : Bool :=
  jsIdxGE (Int.ofNat i) (startBound q) && jsIdxLT (Int.ofNat i) (endBound q)

/-- `.filter(cb)` where the callback reads the element's position:
`filterIdx p n xs` keeps the elements of `xs` whose position (counted
from `n`) satisfies `p`. -/
def filterIdx {α : Type} (p : Nat → Bool) : Nat → List α → List α
  | _, [] => []
  | n, x :: xs => if p n then x :: filterIdx p (n + 1) xs else filterIdx p (n + 1) xs

/-- `.filter((_, index) => ...)`: keep the elements whose position
satisfies the callback. -/
def filterByIndex (q : Query) (xs : List Word) : List Word :=
  filterIdx (idxKeep q) 0 xs

/-- `processedWords` of App.tsx lines 293-340: predicate filter, then
sort, then positional index filter. -/
def processedWords (ws : List Word) (q : Query) : List Word :=
  filterByIndex q (insortB (sortLe q.sortOrder) (ws.filter (wordPasses q)))

/-! ### Quiz verdict parsing (QuizModal.tsx, `handleSendMessage` lines 130-150) -/

def correctMarker : Str := ['【', '正', '解', '】']

def incorrectMarker : Str := ['【', '不', '正', '解', '】']

def masteredStr : Str := ['M', 'a', 's', 't', 'e', 'r', 'e', 'd']

/-- Characters the regex metacharacter `.` does not match. -/
def isLineTerm (c : Char) : Bool :=
  c == '\n' || c == '\r' || c == ' ' || c == ' '

/-- Content of a bracket opened just before this suffix: the characters
up to the first `]`, failing if a line terminator (which `.` cannot
match) or the end of the string comes first. -/
def bracketContentAt : Str → Option Str
  | [] => none
  | c :: r =>
    if c == ']' then some []
    else if isLineTerm c then none
    else
      match bracketContentAt r with
      | none => none
      | some t => some (c :: t)

/-- `fullText.match(/\[(.*?)\]/)`: the regex matches at the leftmost
`[` that is closed by a `]` with no line terminator in between, and the
lazy group captures up to the first such `]`. -/
def firstBracketToken : Str → Option Str
  | [] => none
  | c :: r =>
    if c == '[' then
      match bracketContentAt r with
      | some t => some t
      | none => firstBracketToken r
    else firstBracketToken r

/-- `words.find(w => w.english.toLowerCase() === match[1].toLowerCase())`
when the bracket match succeeded, else `null`. -/
def foundWord (ws : List Word) (t : Str) : Option Word :=
  match firstBracketToken t with
  | none => none
  | some tok => ws.find? (fun w => lower w.english == lower tok)

/-- Observable outcome of the post-stream judgment logic. -/
structure QuizJudge where
  /-- the `isCorrect` flag attached to the model message -/
  isCorrect : Bool
  /-- `setCorrectWordId` argument, when fired -/
  correctWordId : Option Str
  /-- word downgraded to Training by `updateWordStatus`, when fired -/
  downgradeWordId : Option Str
deriving DecidableEq

/-- Lines 130-150 of `handleSendMessage`: bracket lookup, then
`fullText.includes('【正解】')` decides correct; otherwise
`fullText.includes('【不正解】')` runs the downgrade branch (only a
Mastered found word is downgraded). -/
def quizJudge (ws : List Word) (t : Str) : QuizJudge :=
  let fw := foundWord ws t
  if strIncludes t correctMarker then
    { isCorrect := true
      correctWordId :=
        match fw with
        | some w => some w.id
        | none => none
      downgradeWordId := none }
  else if strIncludes t incorrectMarker then
    { isCorrect := false
      correctWordId := none
      downgradeWordId :=
        match fw with
        | some w => if w.status == masteredStr then some w.id else none
        | none => none }
  else
    { isCorrect := false, correctWordId := none, downgradeWordId := none }

/-- The verdict rule as the spec words it, for comparison with the
code: "leading marker determines verdict". -/
def specLeadingVerdict (t : Str) : Option Bool :=
  if strStarts correctMarker t then some true
  else if strStarts incorrectMarker t then some false
  else none

/-! ### Creation flows: `partOfSpeech` (part_004 lines 86-132,
geminiService.ts lines 128-141 and 191-196) -/

def idiomStr : Str := ['I', 'd', 'i', 'o', 'm']

/-- The JavaScript value held in `manualData.partOfSpeech`: a plain
string, an array, or absent. -/
inductive PosInput
  | strVal (s : Str)
  | arrVal (l : List Str)
  | undef
deriving DecidableEq

/-- Lines 98-101 of `handleManualSubmit`:
`let pos = typeof partOfSpeech === 'string' ? [partOfSpeech] : partOfSpeech || [];`
then `if (english?.trim().includes(' ') && !pos.includes('Idiom')) pos = ['Idiom'];`. -/
def manualPos (english : Str) (posIn : PosInput) : List Str :=
  let pos : List Str :=
    match posIn with
    | .strVal s => [s]
    | .arrVal l => l
    | .undef => []
  if strIncludes (jsTrim english) [' '] && !(pos.contains idiomStr) then
    [idiomStr]
  else pos

/-- Lines 132-134 of `generateWordInfo` (and the identical expression at
line 194 of `generateBulkWordInfo`): replace the model-supplied tag list
with `['Idiom']` when the trimmed english contains a space and the list
lacks the tag. -/
def generatePos (english : Str) (modelPos : List Str) : List Str :=
  if strIncludes (jsTrim english) [' '] && !(modelPos.contains idiomStr) then
    [idiomStr]
  else modelPos

/-- "english contains whitespace", the hypothesis as the claim words
it. -/
def containsWhitespace (s : Str) : Bool := s.any isJsWhite

/-! ### Playback sequencer (part_003, `FlashcardView`, lines 350-525)

`playSequence` is an async function whose only suspension points are
`await speak(...)` and `await sleep(...)`.  The UI event loop is single
threaded, so a stop request (stop button, manual flip, manual
single-utterance, unmount) can only take effect between two of those
suspension points.  The interpreter below runs the sequence with an
explicit suspension counter `sus`; `stopAt = some k` means the live
playing flag (`isPlayingRef.current`, and `isMounted`) turns false once
`k` suspension points have completed, `none` means no stop request ever
arrives.  `halted` records that the async function returned early (a
guard fired) or was never resumed (its awaited promise never resolved). -/

inductive BlockType
  | english
  | japanese
  | example
deriving DecidableEq

/-- An observable action of the sequence, tagged below with the number
of completed suspension points at the moment it fired. -/
inductive PlayEv
  /-- `setIsFlipped b` -/
  | flip (b : Bool)
  /-- `window.speechSynthesis.speak` invoked with this text -/
  | spoke (t : Str)
  /-- `setCurrentIndex(prev => prev + 1)` (advance to the next word) -/
  | advanced
  /-- `setIsPlaying(false)` at the end of the last word -/
  | finished
deriving DecidableEq

inductive SpeechOutcome
  | ended
  | errored
deriving DecidableEq

/-- `speak` (part_003 lines 375-410, identically FlashcardView.tsx
lines 212-226) wires both `utterance.onend` and `utterance.onerror` to
`resolve`, so its promise resolves for either outcome. -/
def speakResolves : SpeechOutcome → Bool
  | .ended => true
  | .errored => true

structure RS where
  flipped : Bool
  sus : Nat
  halted : Bool
  events : List (Nat × PlayEv)
deriving DecidableEq

def initRS (flipped : Bool) : RS :=
  { flipped := flipped, sus := 0, halted := false, events := [] }

/-- Whether the playing flag still reads true after `sus` completed
suspension points. -/
def isLive (stopAt : Option Nat) (sus : Nat) : Bool :=
  match stopAt with
  | none => true
  | some k => decide (sus < k)

def emit (rs : RS) (e : PlayEv) : RS :=
  { rs with events := rs.events ++ [(rs.sus, e)] }

/-- `if (!isMounted || !isPlayingRef.current) return;` in the body of
`playSequence`: abort the whole sequence. -/
def guardStep (stopAt : Option Nat) (rs : RS) : RS :=
  if rs.halted then rs
  else if isLive stopAt rs.sus then rs
  else { rs with halted := true }

/-- An `await sleep(...)` with no observable action. -/
def sleepStep (rs : RS) : RS :=
  if rs.halted then rs else { rs with sus := rs.sus + 1 }

/-- `ensureFlipState` (lines 458-466): flip only when the face differs,
guarded by the live flag; its early `return` leaves the caller running
(the caller re-checks the flag itself).  The flip is followed by
`await sleep(600)`. -/
def ensureFlipStep (stopAt : Option Nat) (should : Bool) (rs : RS) : RS :=
  if rs.halted then rs
  else if rs.flipped == should then rs
  else if !(isLive stopAt rs.sus) then rs
  else
    let rs1 := emit { rs with flipped := should } (.flip should)
    { rs1 with sus := rs1.sus + 1 }

/-- `await speak(text, ...)`: the utterance is submitted (the event),
then the continuation runs only if the promise resolves for this
utterance's outcome. -/
def speakStep (oc : Nat → SpeechOutcome) (t : Str) (rs : RS) : RS :=
  if rs.halted then rs
  else
    let rs1 := emit rs (.spoke t)
    if speakResolves (oc rs1.sus) then { rs1 with sus := rs1.sus + 1 }
    else { rs1 with sus := rs1.sus + 1, halted := true }

/-- The example-block loop (lines 493-497): guard, speak the sentence,
`await sleep(400)`, repeat. -/
def playExamples (stopAt : Option Nat) (oc : Nat → SpeechOutcome) :
    List WordExample → RS → RS
  | [], rs => rs
  | ex :: rest, rs =>
    playExamples stopAt oc rest
      (sleepStep (speakStep oc ex.sentence (guardStep stopAt rs)))

/-- One `switch (block.type)` arm (lines 475-500): flip to the block's
face, re-check the live flag, then speak.  The example arm plays
`currentWord.examples.slice(0, 2)` and skips an empty list. -/
def playBlockStep (stopAt : Option Nat) (oc : Nat → SpeechOutcome)
    (w : Word) : BlockType → RS → RS
  | .english, rs =>
    speakStep oc w.english (guardStep stopAt (ensureFlipStep stopAt false rs))
  | .japanese, rs =>
    speakStep oc w.meaning (guardStep stopAt (ensureFlipStep stopAt true rs))
  | .example, rs =>
    if w.examples.length == 0 then
      guardStep stopAt (ensureFlipStep stopAt true rs)
    else
      playExamples stopAt oc (w.examples.take 2)
        (guardStep stopAt (ensureFlipStep stopAt true rs))

/-- The `for (const block of s.timeline)` loop (lines 472-502): guard at
the loop head, the block, then `await sleep(s.flipInterval * 1000)`. -/
def playTimeline (stopAt : Option Nat) (oc : Nat → SpeechOutcome)
    (w : Word) : List BlockType → RS → RS
  | [], rs => rs
  | b :: rest, rs =>
    playTimeline stopAt oc w rest
      (sleepStep (playBlockStep stopAt oc w b (guardStep stopAt rs)))

/-- The guarded word-boundary tail of `playSequence` (lines 504-515):
advance and reset to the front face, or stop playback after the last
word; in both branches `setIsFlipped(false)` follows the first state
update. -/
def playSeqTail (isLast : Bool) (rs2 : RS) : RS :=
  if rs2.halted then rs2
  else if isLast then
    emit { (emit rs2 .finished) with flipped := false } (.flip false)
  else
    emit { (emit rs2 .advanced) with flipped := false } (.flip false)

/-- One invocation of `playSequence` (lines 468-516) on the current
word: entry check, the timeline loop, then the guarded word-boundary
tail. -/
def playSeq (stopAt : Option Nat) (oc : Nat → SpeechOutcome) (w : Word)
    (timeline : List BlockType) (isLast : Bool) (rs : RS) : RS :=
  playSeqTail isLast
    (guardStep stopAt (playTimeline stopAt oc w timeline (guardStep stopAt rs)))

/-! ### Spec-side definitions, for the refinement comparisons -/

/-- The parsed positional bounds as the spec reads them (an optional
integer; a malformed value is "unset"). -/
def specFromIdx (q : Query) : Option Int :=
  if q.filterIndexFrom == ([] : Str) then none else jsParseInt q.filterIndexFrom

def specToIdx (q : Query) : Option Int :=
  if q.filterIndexTo == ([] : Str) then none else jsParseInt q.filterIndexTo

/-- The ordering contract as the spec states it (steps 1-3 of section
4.1): sort the *entire* collection, slice `[from-1, to)` of that base
order with clamping, then apply the predicate filters to the sliced
list. -/
def specRangeFirst (ws : List Word) (q : Query) : List Word :=
  let base := insortB (sortLe q.sortOrder) ws
  let afterFrom :=
    match specFromIdx q with
    | none => base
    | some a => base.drop (max 0 (a - 1)).toNat
  let sliced :=
    match specToIdx q with
    | none => afterFrom
    | some b =>
      afterFrom.take (b.toNat -
        (match specFromIdx q with
         | none => 0
         | some a => (max 0 (a - 1)).toNat))
  sliced.filter (wordPasses q)

/-- The six predicate filters of the callback, as individual
predicates (each is the pass condition of one early-return line). -/
def wordPredicates (q : Query) : List (Word → Bool) :=
  [fun w => matchesSearch q w,
   fun w => !(q.filterCategory != allStr && w.category != q.filterCategory),
   fun w => !(q.filterStatus != allStr && w.status != q.filterStatus),
   fun w => !(q.filterPos != allStr && !(w.partOfSpeech.contains q.filterPos)),
   fun w => !(q.filterToeic != allStr && toeicBelow w q.filterToeic),
   fun w => !(dateActive q && !(dateOK q w))]

/-- Apply a list of predicate filters in sequence. -/
def seqFilter (ps : List (Word → Bool)) (ws : List Word) : List Word :=
  ps.foldl (fun l p => l.filter p) ws

/-- The face of the card after a list of events: the value of the last
flip, or the initial face if none occurred. -/
def lastFlipD (d : Bool) (evs : List (Nat × PlayEv)) : Bool :=
  evs.foldl
    (fun acc e =>
      match e.2 with
      | .flip b => b
      | _ => acc) d

/-- The texts submitted to speech synthesis, in order. -/
def spokenTexts (rs : RS) : List Str :=
  rs.events.filterMap
    (fun p =>
      match p.2 with
      | .spoke t => some t
      | _ => none)

/-! ### Concrete sample data for the counterexamples and witnesses -/

/-- A word with every field blank; the concrete statements below
override the fields they exercise. -/
def blankWord : Word :=
  { id := [], english := [], meaning := [], coreImage := [],
    category := [], partOfSpeech := [], toeicLevel := none,
    examples := [], status := [], pronunciationURL := [],
    createdAtSeconds := 1, comment := [] }

/-- The query state with no filter active, search empty, newest-first
sort: the UI's initial state. -/
def blankQuery : Query :=
  { searchTerm := [], filterCategory := allStr, filterStatus := allStr,
    filterPos := allStr, filterToeic := allStr, dateFromMs := none,
    dateToMs := none, filterIndexFrom := [], filterIndexTo := [],
    sortOrder := .newest }

/-- Oldest word, alphabetically first. -/
def wordA : Word := { blankWord with id := ['A'], english := ['a'], createdAtSeconds := 1 }

/-- Newest word, alphabetically last. -/
def wordB : Word := { blankWord with id := ['B'], english := ['b'], createdAtSeconds := 2 }

/-- Oldest word, alphabetically first, category X. -/
def wordX : Word := { blankWord with id := ['X'], english := ['a'], category := ['X'], createdAtSeconds := 1 }

/-- Newest word, alphabetically last, category Y. -/
def wordY : Word := { blankWord with id := ['Y'], english := ['b'], category := ['Y'], createdAtSeconds := 2 }

/-- Positional range [1, 1] active, newest-first sort. -/
def rangeQuery : Query := { blankQuery with filterIndexFrom := ['1'], filterIndexTo := ['1'] }

/-- The same range with the sort order switched to a-z. -/
def rangeQueryAz : Query := { rangeQuery with sortOrder := .az }

/-- Range [1, 1] with a category filter and a-z sort. -/
def catRangeQuery : Query := { blankQuery with filterCategory := ['Y'], filterIndexFrom := ['1'], filterIndexTo := ['1'], sortOrder := .az }

/-- A chat response that STARTS with the incorrect marker but CONTAINS
the correct marker later. -/
def crossedText : Str := incorrectMarker ++ ['[', 'a', ']', ' '] ++ correctMarker

theorem filterIdx_shift {α : Type} (p : Nat → Bool) (n : Nat) (xs : List α) :
    filterIdx p (n + 1) xs = filterIdx (fun i => p (i + 1)) n xs := by
  induction xs generalizing n with
  | nil => rfl
  | cons x xs ih =>
    show (if p (n + 1) then x :: filterIdx p (n + 2) xs else filterIdx p (n + 2) xs) = _
    rw [ih (n + 1)]
    rfl

theorem filterIdx_of_false {α : Type} (p : Nat → Bool) (h : ∀ i, p i = false)
    (n : Nat) (xs : List α) : filterIdx p n xs = [] := by
  induction xs generalizing n with
  | nil => rfl
  | cons x xs ih =>
    show (if p n then x :: filterIdx p (n + 1) xs else filterIdx p (n + 1) xs) = []
    rw [h n, ih (n + 1)]
    rfl

theorem filterIdx_band {α : Type} (xs : List α) (s e : Nat) :
    filterIdx (fun i => decide (s ≤ i) && decide (i < e)) 0 xs
      = (xs.drop s).take (e - s) := by
  induction xs generalizing s e with
  | nil => simp [filterIdx]
  | cons x xs ih =>
    show (if decide (s ≤ 0) && decide (0 < e) then
            x :: filterIdx _ 1 xs else filterIdx _ 1 xs) = _
    rw [filterIdx_shift]
    have hfun : (fun i => decide (s ≤ i + 1) && decide (i + 1 < e))
        = fun i => decide (s - 1 ≤ i) && decide (i < e - 1) := by
      funext i
      rw [show decide (s ≤ i + 1) = decide (s - 1 ≤ i) from
            decide_eq_decide.mpr (by omega),
          show decide (i + 1 < e) = decide (i < e - 1) from
            decide_eq_decide.mpr (by omega)]
    rw [hfun, ih]
    cases s with
    | zero =>
      cases e with
      | zero => simp
      | succ e2 => simp
    | succ s2 =>
      have hc : (decide (s2 + 1 ≤ 0) && decide (0 < e)) = false := by
        simp
      rw [hc]
      simp only [if_false, Nat.succ_sub_one, List.drop_succ_cons]
      rw [show e - 1 - s2 = e - (s2 + 1) from by omega]
      simp

theorem jsIdxGE_fin (m : Int) (i : Nat) :
    jsIdxGE (Int.ofNat i) (.fin m) = decide (m.toNat ≤ i) := by
  show decide (m ≤ Int.ofNat i) = decide (m.toNat ≤ i)
  exact (decide_eq_decide.mpr Int.toNat_le).symm

theorem jsIdxLT_fin (m : Int) (i : Nat) :
    jsIdxLT (Int.ofNat i) (.fin m) = decide (i < m.toNat) := by
  show decide (Int.ofNat i < m) = decide (i < m.toNat)
  exact (decide_eq_decide.mpr Int.lt_toNat).symm

/-- Characterization of the index-range filter: with both positional
bounds set and parsing to integers `a` and `b`, the displayed list is
the `[max 0 (a-1), b)` slice of the live-sorted, predicate-filtered
list. -/
theorem processedWords_slice (ws : List Word) (q : Query) (a b : Int)
    (hf : q.filterIndexFrom ≠ []) (ht : q.filterIndexTo ≠ [])
    (hpa : jsParseInt q.filterIndexFrom = some a)
    (hpb : jsParseInt q.filterIndexTo = some b) :
    processedWords ws q =
      ((insortB (sortLe q.sortOrder) (ws.filter (wordPasses q))).drop
          (max 0 (a - 1)).toNat).take
        (b.toNat - (max 0 (a - 1)).toNat) := by
  unfold processedWords filterByIndex
  have hpred : idxKeep q
      = fun i => decide ((max 0 (a - 1)).toNat ≤ i) && decide (i < b.toNat) := by
    funext i
    unfold idxKeep startBound endBound
    simp only [hpa, hpb, beq_iff_eq, if_neg hf, if_neg ht]
    rw [jsIdxGE_fin, jsIdxLT_fin]
  rw [hpred, filterIdx_band]

theorem toeic_nan_passes (ws : List Word) (q : Query)
    (hp : jsParseInt q.filterToeic = none) :
    processedWords ws q = processedWords ws { q with filterToeic := allStr } := by
  have hw : wordPasses { q with filterToeic := allStr } = wordPasses q := by
    funext w
    unfold wordPasses toeicBelow
    rw [hp]
    simp [matchesSearch, dateActive, dateOK]
  unfold processedWords filterByIndex
  rw [hw]
  exact rfl

theorem idxFrom_nan_empty (ws : List Word) (q : Query)
    (hf : q.filterIndexFrom ≠ [])
    (hp : jsParseInt q.filterIndexFrom = none) :
    processedWords ws q = [] := by
  unfold processedWords filterByIndex
  apply filterIdx_of_false
  intro i
  unfold idxKeep startBound
  simp only [hp, beq_iff_eq, if_neg hf]
  rfl

theorem idxTo_nan_empty (ws : List Word) (q : Query)
    (ht : q.filterIndexTo ≠ [])
    (hp : jsParseInt q.filterIndexTo = none) :
    processedWords ws q = [] := by
  unfold processedWords filterByIndex
  apply filterIdx_of_false
  intro i
  unfold idxKeep endBound
  simp only [hp, beq_iff_eq, if_neg ht]
  simp [jsIdxLT]

theorem all_of_perm {α : Type} {l l2 : List α} (h : l.Perm l2) (f : α → Bool) :
    l.all f = l2.all f := by
  by_cases ha : l.all f = true
  · rw [ha]
    symm
    rw [List.all_eq_true] at ha ⊢
    intro x hx
    exact ha x (h.mem_iff.mpr hx)
  · have hb : ¬ l2.all f = true := by
      intro hb
      exact ha (List.all_eq_true.mpr
        (fun x hx => (List.all_eq_true.mp hb) x (h.mem_iff.mp hx)))
    simp only [Bool.not_eq_true] at ha hb
    rw [ha, hb]

theorem seqFilter_eq_all (ps : List (Word → Bool)) (ws : List Word) :
    seqFilter ps ws = ws.filter (fun w => ps.all (fun p => p w)) := by
  induction ps generalizing ws with
  | nil => simp [seqFilter]
  | cons p ps ih =>
    show seqFilter ps (ws.filter p) = _
    rw [ih, List.filter_filter]
    apply List.filter_congr
    intro x _
    simp [Bool.and_comm]

theorem wordPasses_eq_all (q : Query) (w : Word) :
    wordPasses q w = (wordPredicates q).all (fun p => p w) := by
  unfold wordPasses wordPredicates
  cases h1 : matchesSearch q w <;>
    cases h2 : (q.filterCategory != allStr && w.category != q.filterCategory) <;>
      cases h3 : (q.filterStatus != allStr && w.status != q.filterStatus) <;>
        cases h4 : (q.filterPos != allStr && !(w.partOfSpeech.contains q.filterPos)) <;>
          cases h5 : (q.filterToeic != allStr && toeicBelow w q.filterToeic) <;>
            cases h6 : (dateActive q && !(dateOK q w)) <;>
              simp only [List.all_cons, List.all_nil, h1, h2, h3, h4, h5, h6] <;> rfl

/-- C1 (corrected): there is no frozen order.  With an active
positional range, the selected words are always the `[a-1, b)` slice of
the predicate-filtered collection sorted by the CURRENT `sortOrder`:
setting any new sort order `o2` re-derives membership from positions
under `o2`, so changing the sort while the range is active changes the
selected set whenever the orders disagree on those positions. -/
theorem c1_range_tracks_live_sort (ws : List Word) (q : Query) (a b : Int)
    (o2 : SortOrder)
    (hf : q.filterIndexFrom ≠ []) (ht : q.filterIndexTo ≠ [])
    (hpa : jsParseInt q.filterIndexFrom = some a)
    (hpb : jsParseInt q.filterIndexTo = some b) :
    processedWords ws { q with sortOrder := o2 } =
      ((insortB (sortLe o2) (ws.filter (wordPasses q))).drop
          (max 0 (a - 1)).toNat).take
        (b.toNat - (max 0 (a - 1)).toNat) :=
  processedWords_slice ws { q with sortOrder := o2 } a b hf ht hpa hpb

/-- C1 counterexample: a two-word collection with range [1, 1].
Under `newest` the range selects exactly the newer word; switching
`sortOrder` to `a-z` while the range stays active makes it select
exactly the other word — the membership the claim says is frozen
changes with the live sort order. -/
theorem c1_frozen_order_counterexample :
    processedWords [wordA, wordB] rangeQuery = [wordB] ∧
    processedWords [wordA, wordB] rangeQueryAz = [wordA] :=
  ⟨rfl, rfl⟩

/-- Witness for the corrected C1 theorem at a concrete collection,
range and sort-order change. -/
theorem c1_range_tracks_live_sort_witness :
    rangeQuery.filterIndexFrom ≠ [] ∧
    jsParseInt rangeQuery.filterIndexFrom = some 1 ∧
    processedWords [wordA, wordB] { rangeQuery with sortOrder := .az } =
      ((insortB (sortLe .az)
          ([wordA, wordB].filter (wordPasses rangeQuery))).drop
          (max 0 ((1 : Int) - 1)).toNat).take
        ((1 : Int).toNat - (max 0 ((1 : Int) - 1)).toNat) :=
  ⟨by decide, by decide,
   c1_range_tracks_live_sort [wordA, wordB] rangeQuery 1 1 .az
     (by decide) (by decide) (by decide) (by decide)⟩

/-- C2 (corrected): the positional range selects words by their
position in the predicate-FILTERED list sorted by `sortOrder`, not in
the entire collection — the predicates run before the sort and the
slice, not after. -/
theorem c2_range_on_filtered_list (ws : List Word) (q : Query) (a b : Int)
    (hf : q.filterIndexFrom ≠ []) (ht : q.filterIndexTo ≠ [])
    (hpa : jsParseInt q.filterIndexFrom = some a)
    (hpb : jsParseInt q.filterIndexTo = some b) :
    processedWords ws q =
      ((insortB (sortLe q.sortOrder) (ws.filter (wordPasses q))).drop
          (max 0 (a - 1)).toNat).take
        (b.toNat - (max 0 (a - 1)).toNat) :=
  processedWords_slice ws q a b hf ht hpa hpb

/-- C2 counterexample: with a category filter and range [1, 1], the
code shows the single category-Y word, while the claimed contract
(slice the base order of the whole collection first, then filter)
yields the empty list. -/
theorem c2_pipeline_counterexample :
    processedWords [wordX, wordY] catRangeQuery = [wordY] ∧
    specRangeFirst [wordX, wordY] catRangeQuery = [] :=
  ⟨rfl, rfl⟩

/-- Witness for the corrected C2 theorem at a concrete collection and
range. -/
theorem c2_range_on_filtered_list_witness :
    rangeQuery.filterIndexFrom ≠ [] ∧
    jsParseInt rangeQuery.filterIndexFrom = some 1 ∧
    processedWords [wordX] rangeQuery =
      ((insortB (sortLe rangeQuery.sortOrder)
          ([wordX].filter (wordPasses rangeQuery))).drop
          (max 0 ((1 : Int) - 1)).toNat).take
        ((1 : Int).toNat - (max 0 ((1 : Int) - 1)).toNat) :=
  ⟨by decide, by decide,
   c2_range_on_filtered_list [wordX] rangeQuery 1 1
     (by decide) (by decide) (by decide) (by decide)⟩

/-- C4 (corrected): the pipeline is total, and a malformed
`filterToeicMin` behaves as "All"; but a malformed `filterIndexFrom` or
`filterIndexTo` yields the EMPTY list (every index comparison against
`NaN` is false), not the unset behavior the claim states. -/
theorem c4_malformed_numeric_filters :
    (∀ (ws : List Word) (q : Query), q.filterToeic ≠ [] →
      jsParseInt q.filterToeic = none →
      processedWords ws q = processedWords ws { q with filterToeic := allStr }) ∧
    (∀ (ws : List Word) (q : Query), q.filterIndexFrom ≠ [] →
      jsParseInt q.filterIndexFrom = none → processedWords ws q = []) ∧
    (∀ (ws : List Word) (q : Query), q.filterIndexTo ≠ [] →
      jsParseInt q.filterIndexTo = none → processedWords ws q = []) :=
  ⟨fun ws q _ hp => toeic_nan_passes ws q hp,
   fun ws q hf hp => idxFrom_nan_empty ws q hf hp,
   fun ws q ht hp => idxTo_nan_empty ws q ht hp⟩

/-- C4 counterexample: a malformed `filterIndexFrom` ("x") empties
the result, while the same collection with the filter unset shows the
word — the two disagree, refuting "same as unset". -/
theorem c4_malformed_index_counterexample :
    processedWords [blankWord] { blankQuery with filterIndexFrom := ['x'] } = [] ∧
    processedWords [blankWord] blankQuery = [blankWord] :=
  ⟨rfl, rfl⟩

/-- Witness for the corrected C4 theorem at concrete malformed
inputs. -/
theorem c4_malformed_numeric_filters_witness :
    (['x'] : Str) ≠ [] ∧ jsParseInt (['x']) = none ∧
    processedWords [blankWord] { blankQuery with filterToeic := ['x'] } =
      processedWords [blankWord]
        { { blankQuery with filterToeic := ['x'] } with filterToeic := allStr } ∧
    processedWords [blankWord] { blankQuery with filterIndexFrom := ['x'] } = [] ∧
    processedWords [blankWord] { blankQuery with filterIndexTo := ['x'] } = [] :=
  ⟨by decide, by decide,
   c4_malformed_numeric_filters.1 [blankWord] { blankQuery with filterToeic := ['x'] } (by decide) (by decide),
   c4_malformed_numeric_filters.2.1 [blankWord] { blankQuery with filterIndexFrom := ['x'] } (by decide) (by decide),
   c4_malformed_numeric_filters.2.2 [blankWord] { blankQuery with filterIndexTo := ['x'] } (by decide) (by decide)⟩

/-- C7: predicate commutativity.  Applying the six predicate filters
of the callback in ANY order (any permutation) gives exactly the list
the code's single conjunctive filter produces. -/
theorem c7_predicate_commutativity (q : Query) (ws : List Word)
    (ps : List (Word → Bool)) (hperm : (wordPredicates q).Perm ps) :
    seqFilter ps ws = ws.filter (wordPasses q) := by
  rw [seqFilter_eq_all]
  apply List.filter_congr
  intro w _
  rw [wordPasses_eq_all]
  exact (all_of_perm hperm (fun p => p w)).symm

/-- Witness for C7 with the predicate list reversed over a concrete
collection. -/
theorem c7_predicate_commutativity_witness :
    (wordPredicates blankQuery).Perm ((wordPredicates blankQuery).reverse) ∧
    seqFilter ((wordPredicates blankQuery).reverse) [blankWord]
      = [blankWord].filter (wordPasses blankQuery) :=
  ⟨(List.reverse_perm (wordPredicates blankQuery)).symm,
   c7_predicate_commutativity blankQuery [blankWord]
     ((wordPredicates blankQuery).reverse)
     ((List.reverse_perm (wordPredicates blankQuery)).symm)⟩

/-- C3 counterexample: a response that STARTS with the incorrect
marker but mentions the correct marker later is judged correct by the
code (`includes`, not a leading-token check), against the claim's
leading-marker rule. -/
theorem c3_leading_marker_counterexample :
    specLeadingVerdict crossedText = some false ∧
    (quizJudge [wordA] crossedText).isCorrect = true ∧
    (quizJudge [wordA] crossedText).correctWordId = some (['A'] : Str) :=
  ⟨rfl, rfl, rfl⟩

/-- C3 (corrected): the verdict is decided by substring containment,
not by the leading token — correct iff the text contains the correct
marker anywhere; the bracket half of the claim is accurate: the first
`[...]` token identifies the word by case-insensitive exact match
against its english field. -/
theorem c3_verdict_by_containment (ws : List Word) (t : Str) :
    (quizJudge ws t).isCorrect = strIncludes t correctMarker ∧
    (quizJudge ws t).correctWordId =
      (if strIncludes t correctMarker then (foundWord ws t).map (fun w => w.id)
       else none) ∧
    foundWord ws t =
      (match firstBracketToken t with
       | none => none
       | some tok => ws.find? (fun w => lower w.english == lower tok)) := by
  refine ⟨?_, ?_, rfl⟩
  · unfold quizJudge
    cases h : strIncludes t correctMarker <;>
      cases h2 : strIncludes t incorrectMarker <;>
        simp [h, h2]
  · unfold quizJudge
    cases h : strIncludes t correctMarker <;>
      cases h2 : strIncludes t incorrectMarker <;>
        cases hf : foundWord ws t <;>
          simp [h, h2, hf]

/-- C5 counterexample: a single-token english with no supplied tag
produces an EMPTY `partOfSpeech` in both creation flows — no default is
applied. -/
theorem c5_empty_pos_counterexample :
    manualPos (['a', 'p', 'p', 'l', 'e']) (.arrVal []) = [] ∧
    generatePos (['a', 'p', 'p', 'l', 'e']) [] = [] :=
  ⟨rfl, rfl⟩

/-- C5 (corrected): in both creation flows the resulting
`partOfSpeech` is empty exactly when the supplied tag list is empty and
the trimmed english contains no space; the only "default" is the Idiom
rule for multi-word entries. -/
theorem c5_pos_emptiness (e : Str) (l : List Str) :
    (manualPos e (.arrVal l)).isEmpty
      = (l.isEmpty && !(strIncludes (jsTrim e) [' '])) ∧
    (generatePos e l).isEmpty
      = (l.isEmpty && !(strIncludes (jsTrim e) [' '])) := by
  have key : (if strIncludes (jsTrim e) [' '] && !(l.contains idiomStr)
      then [idiomStr] else l).isEmpty
      = (l.isEmpty && !(strIncludes (jsTrim e) [' '])) := by
    cases hs : strIncludes (jsTrim e) [' '] with
    | false => simp
    | true =>
      cases hc : l.contains idiomStr with
      | false => simp_all
      | true =>
        have hne : l.isEmpty = false := by
          cases l with
          | nil => exact absurd hc (by decide)
          | cons a as => rfl
        simp_all
  exact ⟨key, key⟩

/-- C8 counterexample: english " pickup" contains whitespace (a
leading space), yet after manual creation with no tags the
`partOfSpeech` does not include "Idiom" — the code tests
`english.trim().includes(' ')`, which ignores leading and trailing
whitespace. -/
theorem c8_whitespace_counterexample :
    containsWhitespace ([' ', 'p', 'i', 'c', 'k', 'u', 'p']) = true ∧
    (manualPos ([' ', 'p', 'i', 'c', 'k', 'u', 'p']) (.arrVal [])).contains idiomStr
      = false :=
  ⟨rfl, rfl⟩

/-- C8 (corrected): whenever the TRIMMED english contains a space
character, both creation flows produce a `partOfSpeech` containing
"Idiom". -/
theorem c8_idiom_on_trimmed_space (e : Str) (posIn : PosInput) (l : List Str)
    (h : strIncludes (jsTrim e) [' '] = true) :
    (manualPos e posIn).contains idiomStr = true ∧
    (generatePos e l).contains idiomStr = true := by
  have key : ∀ (l2 : List Str),
      (if strIncludes (jsTrim e) [' '] && !(l2.contains idiomStr)
        then [idiomStr] else l2).contains idiomStr = true := by
    intro l2
    rw [h]
    cases hc : l2.contains idiomStr with
    | false => simp_all
    | true => simp_all
  exact ⟨key _, key l⟩

/-- Witness for the corrected C8 theorem at english "pick up" with no
supplied tag. -/
theorem c8_idiom_on_trimmed_space_witness :
    strIncludes (jsTrim (['p', 'i', 'c', 'k', ' ', 'u', 'p'])) [' '] = true ∧
    (manualPos (['p', 'i', 'c', 'k', ' ', 'u', 'p']) (.arrVal [])).contains idiomStr
      = true ∧
    (generatePos (['p', 'i', 'c', 'k', ' ', 'u', 'p']) []).contains idiomStr = true :=
  ⟨by decide,
   (c8_idiom_on_trimmed_space (['p', 'i', 'c', 'k', ' ', 'u', 'p']) (.arrVal []) []
     (by decide)).1,
   (c8_idiom_on_trimmed_space (['p', 'i', 'c', 'k', ' ', 'u', 'p']) (.arrVal []) []
     (by decide)).2⟩

theorem lastFlipD_append (d : Bool) (evs : List (Nat × PlayEv)) (n : Nat)
    (e : PlayEv) :
    lastFlipD d (evs ++ [(n, e)])
      = (match e with
         | .flip b => b
         | _ => lastFlipD d evs) := by
  unfold lastFlipD
  rw [List.foldl_append]
  rfl

theorem guard_keeps (k : Nat) (d : Bool) (rs : RS)
    (hT : ∀ p ∈ rs.events, p.1 < k)
    (hF : rs.flipped = lastFlipD d rs.events) :
    (∀ p ∈ (guardStep (some k) rs).events, p.1 < k) ∧
    (guardStep (some k) rs).flipped = lastFlipD d (guardStep (some k) rs).events ∧
    (guardStep (some k) rs).sus = rs.sus ∧
    ((guardStep (some k) rs).halted = false → rs.sus < k) := by
  cases hh : rs.halted with
  | true =>
    have hres : guardStep (some k) rs = rs := by
      unfold guardStep
      rw [hh]
      simp
    rw [hres]
    exact ⟨hT, hF, rfl, fun hfalse => by rw [hfalse] at hh; simp at hh⟩
  | false =>
    cases hl : isLive (some k) rs.sus with
    | true =>
      have hres : guardStep (some k) rs = rs := by
        unfold guardStep
        rw [hh, hl]
        simp
      have hs : rs.sus < k := by simpa [isLive] using hl
      rw [hres]
      exact ⟨hT, hF, rfl, fun _ => hs⟩
    | false =>
      have hres : guardStep (some k) rs = { rs with halted := true } := by
        unfold guardStep
        rw [hh, hl]
        simp
      rw [hres]
      exact ⟨hT, hF, rfl, fun hfalse => by simp at hfalse⟩

theorem ensureFlip_keeps (k : Nat) (d should : Bool) (rs : RS)
    (hT : ∀ p ∈ rs.events, p.1 < k)
    (hF : rs.flipped = lastFlipD d rs.events) :
    (∀ p ∈ (ensureFlipStep (some k) should rs).events, p.1 < k) ∧
    (ensureFlipStep (some k) should rs).flipped
      = lastFlipD d (ensureFlipStep (some k) should rs).events := by
  cases hh : rs.halted with
  | true =>
    have hres : ensureFlipStep (some k) should rs = rs := by
      unfold ensureFlipStep
      rw [hh]
      simp
    rw [hres]
    exact ⟨hT, hF⟩
  | false =>
    cases he : rs.flipped == should with
    | true =>
      have hres : ensureFlipStep (some k) should rs = rs := by
        unfold ensureFlipStep
        rw [hh, he]
        simp
      rw [hres]
      exact ⟨hT, hF⟩
    | false =>
      cases hl : isLive (some k) rs.sus with
      | false =>
        have hres : ensureFlipStep (some k) should rs = rs := by
          unfold ensureFlipStep
          rw [hh, he, hl]
          simp
        rw [hres]
        exact ⟨hT, hF⟩
      | true =>
        have hs : rs.sus < k := by simpa [isLive] using hl
        have hres : ensureFlipStep (some k) should rs = { rs with flipped := should, events := rs.events ++ [(rs.sus, .flip should)], sus := rs.sus + 1 } := by
          unfold ensureFlipStep
          rw [hh, he, hl]
          simp [emit]
        rw [hres]
        constructor
        · intro p hp
          rcases List.mem_append.mp hp with h1 | h2
          · exact hT p h1
          · rw [List.mem_singleton] at h2
            subst h2
            exact hs
        · rw [lastFlipD_append]

theorem speak_keeps (k : Nat) (d : Bool) (oc : Nat → SpeechOutcome) (t : Str)
    (rs : RS)
    (hT : ∀ p ∈ rs.events, p.1 < k)
    (hF : rs.flipped = lastFlipD d rs.events)
    (hg : rs.halted = false → rs.sus < k) :
    (∀ p ∈ (speakStep oc t rs).events, p.1 < k) ∧
    (speakStep oc t rs).flipped = lastFlipD d (speakStep oc t rs).events := by
  cases hh : rs.halted with
  | true =>
    have hres : speakStep oc t rs = rs := by
      unfold speakStep
      rw [hh]
      simp
    rw [hres]
    exact ⟨hT, hF⟩
  | false =>
    have hs : rs.sus < k := hg hh
    have hsr : ∀ o, speakResolves o = true := fun o => by cases o <;> rfl
    have hres : speakStep oc t rs = { rs with events := rs.events ++ [(rs.sus, .spoke t)], sus := rs.sus + 1 } := by
      unfold speakStep
      rw [hh]
      simp [emit, hsr, hh]
    rw [hres]
    constructor
    · intro p hp
      rcases List.mem_append.mp hp with h1 | h2
      · exact hT p h1
      · rw [List.mem_singleton] at h2
        subst h2
        exact hs
    · rw [lastFlipD_append]
      exact hF

theorem sleep_keeps (k : Nat) (d : Bool) (rs : RS)
    (hT : ∀ p ∈ rs.events, p.1 < k)
    (hF : rs.flipped = lastFlipD d rs.events) :
    (∀ p ∈ (sleepStep rs).events, p.1 < k) ∧
    (sleepStep rs).flipped = lastFlipD d (sleepStep rs).events := by
  cases hh : rs.halted with
  | true =>
    have hres : sleepStep rs = rs := by
      unfold sleepStep
      rw [hh]
      simp
    rw [hres]
    exact ⟨hT, hF⟩
  | false =>
    have hres : sleepStep rs = { rs with sus := rs.sus + 1 } := by
      unfold sleepStep
      rw [hh]
      simp
    rw [hres]
    exact ⟨hT, hF⟩

theorem examples_keeps (k : Nat) (d : Bool) (oc : Nat → SpeechOutcome)
    (exs : List WordExample) (rs : RS)
    (hT : ∀ p ∈ rs.events, p.1 < k)
    (hF : rs.flipped = lastFlipD d rs.events) :
    (∀ p ∈ (playExamples (some k) oc exs rs).events, p.1 < k) ∧
    (playExamples (some k) oc exs rs).flipped
      = lastFlipD d (playExamples (some k) oc exs rs).events := by
  induction exs generalizing rs with
  | nil => exact ⟨hT, hF⟩
  | cons ex rest ih =>
    obtain ⟨hT1, hF1, hsus1, hg1⟩ := guard_keeps k d rs hT hF
    have hg1b : (guardStep (some k) rs).halted = false →
        (guardStep (some k) rs).sus < k := by
      intro hfalse
      rw [hsus1]
      exact hg1 hfalse
    obtain ⟨hT2, hF2⟩ :=
      speak_keeps k d oc ex.sentence (guardStep (some k) rs) hT1 hF1 hg1b
    obtain ⟨hT3, hF3⟩ := sleep_keeps k d _ hT2 hF2
    exact ih _ hT3 hF3

theorem block_keeps (k : Nat) (d : Bool) (oc : Nat → SpeechOutcome) (w : Word)
    (b : BlockType) (rs : RS)
    (hT : ∀ p ∈ rs.events, p.1 < k)
    (hF : rs.flipped = lastFlipD d rs.events) :
    (∀ p ∈ (playBlockStep (some k) oc w b rs).events, p.1 < k) ∧
    (playBlockStep (some k) oc w b rs).flipped
      = lastFlipD d (playBlockStep (some k) oc w b rs).events := by
  cases b
  · obtain ⟨hT1, hF1⟩ := ensureFlip_keeps k d false rs hT hF
    obtain ⟨hT2, hF2, hsus2, hg2⟩ := guard_keeps k d _ hT1 hF1
    have hg2b : (guardStep (some k) (ensureFlipStep (some k) false rs)).halted = false →
        (guardStep (some k) (ensureFlipStep (some k) false rs)).sus < k := by
      intro hfalse
      rw [hsus2]
      exact hg2 hfalse
    exact speak_keeps k d oc w.english _ hT2 hF2 hg2b
  · obtain ⟨hT1, hF1⟩ := ensureFlip_keeps k d true rs hT hF
    obtain ⟨hT2, hF2, hsus2, hg2⟩ := guard_keeps k d _ hT1 hF1
    have hg2b : (guardStep (some k) (ensureFlipStep (some k) true rs)).halted = false →
        (guardStep (some k) (ensureFlipStep (some k) true rs)).sus < k := by
      intro hfalse
      rw [hsus2]
      exact hg2 hfalse
    exact speak_keeps k d oc w.meaning _ hT2 hF2 hg2b
  · obtain ⟨hT1, hF1⟩ := ensureFlip_keeps k d true rs hT hF
    obtain ⟨hT2, hF2, hsus2, hg2⟩ := guard_keeps k d _ hT1 hF1
    cases hlen : w.examples.length == 0 with
    | true =>
      have hres : playBlockStep (some k) oc w .example rs
          = guardStep (some k) (ensureFlipStep (some k) true rs) := by
        show (if w.examples.length == 0 then _ else _) = _
        rw [hlen]
        simp
      rw [hres]
      exact ⟨hT2, hF2⟩
    | false =>
      have hres : playBlockStep (some k) oc w .example rs
          = playExamples (some k) oc (w.examples.take 2)
            (guardStep (some k) (ensureFlipStep (some k) true rs)) := by
        show (if w.examples.length == 0 then _ else _) = _
        rw [hlen]
        simp
      rw [hres]
      exact examples_keeps k d oc (w.examples.take 2) _ hT2 hF2

theorem timeline_keeps (k : Nat) (d : Bool) (oc : Nat → SpeechOutcome)
    (w : Word) (tl : List BlockType) (rs : RS)
    (hT : ∀ p ∈ rs.events, p.1 < k)
    (hF : rs.flipped = lastFlipD d rs.events) :
    (∀ p ∈ (playTimeline (some k) oc w tl rs).events, p.1 < k) ∧
    (playTimeline (some k) oc w tl rs).flipped
      = lastFlipD d (playTimeline (some k) oc w tl rs).events := by
  induction tl generalizing rs with
  | nil => exact ⟨hT, hF⟩
  | cons b rest ih =>
    obtain ⟨hT1, hF1, hsus1, hg1⟩ := guard_keeps k d rs hT hF
    obtain ⟨hT2, hF2⟩ := block_keeps k d oc w b _ hT1 hF1
    obtain ⟨hT3, hF3⟩ := sleep_keeps k d _ hT2 hF2
    exact ih _ hT3 hF3

theorem tail_keeps (k : Nat) (d : Bool) (isLast : Bool) (rs2 : RS)
    (hT2 : ∀ p ∈ rs2.events, p.1 < k)
    (hF2 : rs2.flipped = lastFlipD d rs2.events)
    (hg : rs2.halted = false → rs2.sus < k) :
    (∀ p ∈ (playSeqTail isLast rs2).events, p.1 < k) ∧
    (playSeqTail isLast rs2).flipped
      = lastFlipD d (playSeqTail isLast rs2).events := by
  cases hh2 : rs2.halted with
  | true =>
    have hres : playSeqTail isLast rs2 = rs2 := by
      unfold playSeqTail
      rw [hh2]
      simp
    rw [hres]
    exact ⟨hT2, hF2⟩
  | false =>
    have hsk : rs2.sus < k := hg hh2
    cases isLast with
    | true =>
      have hres : playSeqTail true rs2 = { rs2 with flipped := false, events := (rs2.events ++ [(rs2.sus, .finished)]) ++ [(rs2.sus, .flip false)] } := by
        unfold playSeqTail
        rw [hh2]
        simp [emit, hh2]
      rw [hres]
      constructor
      · intro p hp
        rcases List.mem_append.mp hp with h12 | h3
        · rcases List.mem_append.mp h12 with h1 | h2
          · exact hT2 p h1
          · rw [List.mem_singleton] at h2
            subst h2
            exact hsk
        · rw [List.mem_singleton] at h3
          subst h3
          exact hsk
      · show false = _
        rw [lastFlipD_append]
    | false =>
      have hres : playSeqTail false rs2 = { rs2 with flipped := false, events := (rs2.events ++ [(rs2.sus, .advanced)]) ++ [(rs2.sus, .flip false)] } := by
        unfold playSeqTail
        rw [hh2]
        simp [emit, hh2]
      rw [hres]
      constructor
      · intro p hp
        rcases List.mem_append.mp hp with h12 | h3
        · rcases List.mem_append.mp h12 with h1 | h2
          · exact hT2 p h1
          · rw [List.mem_singleton] at h2
            subst h2
            exact hsk
        · rw [List.mem_singleton] at h3
          subst h3
          exact hsk
      · show false = _
        rw [lastFlipD_append]

theorem playSeq_keeps (k : Nat) (d : Bool) (oc : Nat → SpeechOutcome)
    (w : Word) (tl : List BlockType) (isLast : Bool) (rs : RS)
    (hT : ∀ p ∈ rs.events, p.1 < k)
    (hF : rs.flipped = lastFlipD d rs.events) :
    (∀ p ∈ (playSeq (some k) oc w tl isLast rs).events, p.1 < k) ∧
    (playSeq (some k) oc w tl isLast rs).flipped
      = lastFlipD d (playSeq (some k) oc w tl isLast rs).events := by
  obtain ⟨hT0, hF0, hsus0, hg0⟩ := guard_keeps k d rs hT hF
  obtain ⟨hT1, hF1⟩ := timeline_keeps k d oc w tl _ hT0 hF0
  obtain ⟨hT2, hF2, hsus2, hg2⟩ :=
    guard_keeps k d (playTimeline (some k) oc w tl (guardStep (some k) rs)) hT1 hF1
  have hg2b : (guardStep (some k)
      (playTimeline (some k) oc w tl (guardStep (some k) rs))).halted = false →
      (guardStep (some k)
        (playTimeline (some k) oc w tl (guardStep (some k) rs))).sus < k := by
    intro hfalse
    rw [hsus2]
    exact hg2 hfalse
  exact tail_keeps k d isLast _ hT2 hF2 hg2b

/-- C6: playback cancellation.  If the live playing flag turns false
after `k` completed suspension points (a stop request, manual flip,
manual single utterance, or unmount between awaits), then every event
of the sequence — every utterance submission, flip, and advance —
carries a suspension tag `< k`: nothing scheduled fires at or after the
stop, and the card face equals the last flip performed before it. -/
theorem c6_cancellation (w : Word) (tl : List BlockType) (isLast d : Bool)
    (k : Nat) (oc : Nat → SpeechOutcome) :
    ((playSeq (some k) oc w tl isLast (initRS d)).events.all
        (fun p => decide (p.1 < k))) = true ∧
    (playSeq (some k) oc w tl isLast (initRS d)).flipped
      = lastFlipD d (playSeq (some k) oc w tl isLast (initRS d)).events := by
  have main := playSeq_keeps k d oc w tl isLast (initRS d)
    (by intro p hp; simp [initRS] at hp) rfl
  exact ⟨List.all_eq_true.mpr (fun p hp => decide_eq_true (main.1 p hp)), main.2⟩

theorem speakResolves_true (o : SpeechOutcome) : speakResolves o = true := by
  cases o <;> rfl

theorem speakStep_oc (oc oc2 : Nat → SpeechOutcome) (t : Str) (rs : RS) :
    speakStep oc t rs = speakStep oc2 t rs := by
  unfold speakStep
  simp [speakResolves_true]

theorem playExamples_oc (stopAt : Option Nat) (oc oc2 : Nat → SpeechOutcome)
    (exs : List WordExample) (rs : RS) :
    playExamples stopAt oc exs rs = playExamples stopAt oc2 exs rs := by
  induction exs generalizing rs with
  | nil => rfl
  | cons ex rest ih =>
    show playExamples stopAt oc rest
        (sleepStep (speakStep oc ex.sentence (guardStep stopAt rs))) = _
    rw [speakStep_oc oc oc2]
    exact ih _

theorem playBlockStep_oc (stopAt : Option Nat) (oc oc2 : Nat → SpeechOutcome)
    (w : Word) (b : BlockType) (rs : RS) :
    playBlockStep stopAt oc w b rs = playBlockStep stopAt oc2 w b rs := by
  cases b
  · exact speakStep_oc oc oc2 w.english _
  · exact speakStep_oc oc oc2 w.meaning _
  · show (if w.examples.length == 0 then
        guardStep stopAt (ensureFlipStep stopAt true rs)
      else playExamples stopAt oc (w.examples.take 2)
        (guardStep stopAt (ensureFlipStep stopAt true rs))) = _
    rw [playExamples_oc stopAt oc oc2]
    rfl

theorem playTimeline_oc (stopAt : Option Nat) (oc oc2 : Nat → SpeechOutcome)
    (w : Word) (tl : List BlockType) (rs : RS) :
    playTimeline stopAt oc w tl rs = playTimeline stopAt oc2 w tl rs := by
  induction tl generalizing rs with
  | nil => rfl
  | cons b rest ih =>
    show playTimeline stopAt oc w rest
        (sleepStep (playBlockStep stopAt oc w b (guardStep stopAt rs))) = _
    rw [playBlockStep_oc stopAt oc oc2]
    exact ih _

/-- C9: speech-failure absorption.  The `speak` promise resolves for
every outcome (`onerror` is wired to `resolve` exactly like `onend`),
and an entire sequence run is independent of which utterances ended
normally and which errored — playback never wedges on a synthesis
failure. -/
theorem c9_error_absorption :
    (∀ o : SpeechOutcome, speakResolves o = true) ∧
    (∀ (stopAt : Option Nat) (oc oc2 : Nat → SpeechOutcome) (w : Word)
      (tl : List BlockType) (isLast : Bool) (rs : RS),
      playSeq stopAt oc w tl isLast rs = playSeq stopAt oc2 w tl isLast rs) := by
  constructor
  · exact speakResolves_true
  · intro stopAt oc oc2 w tl isLast rs
    unfold playSeq
    rw [playTimeline_oc stopAt oc oc2]

theorem guard_none (rs : RS) : guardStep none rs = rs := by
  unfold guardStep
  cases hh : rs.halted <;> simp [hh, isLive]

theorem spokenTexts_speakStep (oc : Nat → SpeechOutcome) (t : Str) (rs : RS)
    (h : rs.halted = false) :
    spokenTexts (speakStep oc t rs) = spokenTexts rs ++ [t] ∧
    (speakStep oc t rs).halted = false := by
  have hres : speakStep oc t rs = { rs with events := rs.events ++ [(rs.sus, .spoke t)], sus := rs.sus + 1 } := by
    unfold speakStep
    rw [h]
    simp [emit, speakResolves_true, h]
  rw [hres]
  constructor
  · unfold spokenTexts
    rw [List.filterMap_append]
    rfl
  · exact h

theorem spokenTexts_ensureFlip (b : Bool) (rs : RS) (h : rs.halted = false) :
    spokenTexts (ensureFlipStep none b rs) = spokenTexts rs ∧
    (ensureFlipStep none b rs).halted = false := by
  cases he : rs.flipped == b with
  | true =>
    have hres : ensureFlipStep none b rs = rs := by
      unfold ensureFlipStep
      rw [h, he]
      simp
    rw [hres]
    exact ⟨rfl, h⟩
  | false =>
    have hres : ensureFlipStep none b rs = { rs with flipped := b, events := rs.events ++ [(rs.sus, .flip b)], sus := rs.sus + 1 } := by
      unfold ensureFlipStep
      rw [h, he]
      simp [emit, isLive]
    rw [hres]
    constructor
    · unfold spokenTexts
      rw [List.filterMap_append]
      simp
    · exact h

theorem spokenTexts_sleep (rs : RS) (h : rs.halted = false) :
    spokenTexts (sleepStep rs) = spokenTexts rs ∧ (sleepStep rs).halted = false := by
  have hres : sleepStep rs = { rs with sus := rs.sus + 1 } := by
    unfold sleepStep
    rw [h]
    simp
  rw [hres]
  exact ⟨rfl, h⟩

theorem playExamples_spoken (oc : Nat → SpeechOutcome) (exs : List WordExample)
    (rs : RS) (h : rs.halted = false) :
    spokenTexts (playExamples none oc exs rs)
      = spokenTexts rs ++ exs.map (fun ex => ex.sentence) ∧
    (playExamples none oc exs rs).halted = false := by
  induction exs generalizing rs with
  | nil =>
    constructor
    · show spokenTexts rs = spokenTexts rs ++ ([] : List WordExample).map (fun ex => ex.sentence)
      simp
    · exact h
  | cons ex rest ih =>
    show spokenTexts (playExamples none oc rest
          (sleepStep (speakStep oc ex.sentence (guardStep none rs))))
        = spokenTexts rs ++ (ex :: rest).map (fun ex2 => ex2.sentence) ∧
      (playExamples none oc rest
          (sleepStep (speakStep oc ex.sentence (guardStep none rs)))).halted = false
    rw [guard_none]
    obtain ⟨hs1, hh1⟩ := spokenTexts_speakStep oc ex.sentence rs h
    obtain ⟨hs2, hh2⟩ := spokenTexts_sleep _ hh1
    obtain ⟨hs3, hh3⟩ := ih _ hh2
    rw [hs3, hs2, hs1]
    constructor
    · simp
    · exact hh3

/-- C10: the example block speaks exactly the sentences of
`examples.slice(0, 2)` in stored order — at most the first two, and
nothing at all when the word has no examples. -/
theorem c10_example_cap (w : Word) (d : Bool) (oc : Nat → SpeechOutcome) :
    spokenTexts (playBlockStep none oc w .example (initRS d))
      = (w.examples.take 2).map (fun ex => ex.sentence) := by
  obtain ⟨hse, hhe⟩ := spokenTexts_ensureFlip true (initRS d) rfl
  cases hlen : w.examples.length == 0 with
  | true =>
    have hexs : w.examples = [] := by
      cases hx : w.examples with
      | nil => rfl
      | cons a as =>
        rw [hx] at hlen
        simp at hlen
    have hres : playBlockStep none oc w .example (initRS d)
        = guardStep none (ensureFlipStep none true (initRS d)) := by
      show (if w.examples.length == 0 then _ else _) = _
      rw [hlen]
      simp
    rw [hres, guard_none, hse, hexs]
    rfl
  | false =>
    have hres : playBlockStep none oc w .example (initRS d)
        = playExamples none oc (w.examples.take 2)
          (guardStep none (ensureFlipStep none true (initRS d))) := by
      show (if w.examples.length == 0 then _ else _) = _
      rw [hlen]
      simp
    rw [hres, guard_none]
    obtain ⟨hs2, _⟩ :=
      playExamples_spoken oc (w.examples.take 2) (ensureFlipStep none true (initRS d)) hhe
    rw [hs2, hse]
    simp [spokenTexts, initRS]

end VocabFlow
